import Mathlib

/-!
# ShoreSquad service worker (`sw.js`): offline resource cache

A shallow embedding of the three event listeners of `sw.js` (install, activate, fetch)
over an explicit model of the browser's `CacheStorage`.

Modelling conventions.

* A request is identified by its method and its normalised absolute URL; the URL is the
  cache key.  Header-dependent matching (`Vary`) is outside the model.
* `caches` is an ordered list of named generations (creation order, which is the order of
  `caches.keys()` and the order in which `caches.match` searches); a generation is an
  ordered list of key/response entries.
* Requests are `http(s)` requests, the only ones the Cache API stores.  `cache.put` refuses
  a 206 response, `cache.addAll` a response that is not ok (status outside 200..299) or is
  a 206, and a request list that names one request twice; a refused call writes nothing.
* The network is an input: the outcome of a `fetch` is `none` when the promise is rejected
  and `some r` when it resolves with the response `r`, whatever the status of `r`.
* A handler is a function from the store before the event to the store after all the
  promises it started have settled, together with what it reported to the host and the
  list of `CacheStorage` calls it made.
-/

namespace ShoreSquad

/-! ## Data model -/

/-- A response: HTTP status (0 for an opaque response) and body. -/
structure Response where
  status : Nat
  body : String
deriving DecidableEq, Repr

/-- A request as seen by the fetch listener: `event.request.method`, `event.request.url`. -/
structure Request where
  method : String
  url : String
deriving DecidableEq, Repr

/-- One cache generation: request key to stored response, in insertion order. -/
abbrev Cache := List (String × Response)

/-- The origin's `CacheStorage`: generation name to cache, in creation order. -/
abbrev CacheStorage := List (String × Cache)

/-- Source: `const CACHE_NAME = 'shoresquad-v1';` -/
def CACHE_NAME : String := "shoresquad-v1"

/-- Source: `const urlsToCache = [...]`. -/
def urlsToCache : List String :=
  [ "/",
    "/index.html",
    "/css/styles.css",
    "/js/app.js",
    "https://unpkg.com/leaflet@1.9.4/dist/leaflet.min.css",
    "https://unpkg.com/leaflet@1.9.4/dist/leaflet.min.js" ]

/-- The key of the fallback document, the literal of `caches.match('/index.html')`. -/
def OFFLINE_URL : String := "/index.html"

/-! ## The Cache API, as far as `sw.js` calls it -/

/-- `response.ok`: status in 200..299. -/
def Response.ok (r : Response) : Bool := decide (200 ≤ r.status) && decide (r.status ≤ 299)

/-- `cache.put` refuses a partial (206) response and stores every other one. -/
def putAccepts (r : Response) : Bool := decide (r.status ≠ 206)

/-- `cache.addAll` refuses a response that is not ok or is partial (206). -/
def addAllAccepts (r : Response) : Bool := r.ok && decide (r.status ≠ 206)

/-- `cache.match(key)`: the stored response of the first entry with this key. -/
def cacheMatch : Cache → String → Option Response
  | [], _ => none
  | e :: es, key => if e.1 = key then some e.2 else cacheMatch es key

/-- The entries of a cache whose key is not `key`. -/
def cacheRemove : Cache → String → Cache
  | [], _ => []
  | e :: es, key => if e.1 = key then cacheRemove es key else e :: cacheRemove es key

/-- The write of `cache.put(key, r)`: entries with this key are removed, the new one is added. -/
def cacheWrite (c : Cache) (key : String) (r : Response) : Cache :=
  cacheRemove c key ++ [(key, r)]

/-- `cache.put(key, r)` settled: the write when the response is accepted, no change when
the promise rejects. -/
def cachePut (c : Cache) (key : String) (r : Response) : Cache :=
  if putAccepts r then cacheWrite c key r else c

/-- The fetches of `cache.addAll(urls)`: every url fetched, `none` as soon as one fetch is
rejected or resolves with a response `addAll` refuses. -/
def fetchAll (net : String → Option Response) : List String → Option (List (String × Response))
  | [] => some []
  | u :: us =>
    match net u with
    | none => none
    | some r =>
      if addAllAccepts r then
        match fetchAll net us with
        | none => none
        | some es => some ((u, r) :: es)
      else none

/-- The batch write of `addAll`: one `put` per fetched entry, in order. -/
def writeAll : Cache → List (String × Response) → Cache
  | c, [] => c
  | c, e :: es => writeAll (cacheWrite c e.1 e.2) es

/-- `cache.addAll(urls)`: `none` when the promise rejects (a fetch failed, or the list
names one request twice), in which case the cache is left as it was; otherwise the cache
with every fetched response written. -/
def cacheAddAll (net : String → Option Response) (urls : List String) (c : Cache) :
    Option Cache :=
  match fetchAll net urls with
  | none => none
  | some es => if urls.Nodup then some (writeAll c es) else none

/-- `caches.keys()`: the generation names in creation order. -/
def cachesKeys : CacheStorage → List String
  | [] => []
  | g :: gs => g.1 :: cachesKeys gs

/-- `caches.has(name)`. -/
def cachesHas : CacheStorage → String → Bool
  | [], _ => false
  | g :: gs, name => if g.1 = name then true else cachesHas gs name

/-- The cache that `caches.open(name)` hands out from a store that has one of this name. -/
def cachesGet : CacheStorage → String → Option Cache
  | [], _ => none
  | g :: gs, name => if g.1 = name then some g.2 else cachesGet gs name

/-- `caches.open(name)`: the store afterwards; a generation that does not exist is created
empty, at the end of the list. -/
def cachesOpen (s : CacheStorage) (name : String) : CacheStorage :=
  if cachesHas s name then s else s ++ [(name, [])]

/-- A write through the handle that `caches.open(name)` returned: the generation of this
name has its cache replaced by `f` of it. -/
def cachesUpdate : CacheStorage → String → (Cache → Cache) → CacheStorage
  | [], _, _ => []
  | g :: gs, name, f =>
    if g.1 = name then (g.1, f g.2) :: gs else g :: cachesUpdate gs name f

/-- `caches.delete(name)`: the store without the generation of this name. -/
def cachesDelete : CacheStorage → String → CacheStorage
  | [], _ => []
  | g :: gs, name => if g.1 = name then cachesDelete gs name else g :: cachesDelete gs name

/-- `caches.match(key)`: the generations are searched in creation order and the first hit
is the result. -/
def cachesMatch : CacheStorage → String → Option Response
  | [], _ => none
  | g :: gs, key =>
    match cacheMatch g.2 key with
    | some r => some r
    | none => cachesMatch gs key

/-- A call on `caches` or on a cache handle, as recorded in a handler's trace. -/
inductive CacheCall where
  | opened (name : String)
  | addedAll (name : String) (urls : List String)
  | put (name : String) (key : String) (r : Response)
  | matched (key : String)
  | keys
  | deleted (name : String)
deriving DecidableEq, Repr

/-- Whether a call can change the store. -/
def CacheCall.isWrite : CacheCall → Bool
  | .opened _ => true
  | .addedAll _ _ => true
  | .put _ _ _ => true
  | .matched _ => false
  | .keys => false
  | .deleted _ => true

/-- Whether a call reads stored entries. -/
def CacheCall.isRead : CacheCall → Bool
  | .matched _ => true
  | _ => false

/-! ## The install listener -/

/-- What the install listener leaves behind. -/
structure InstallResult where
  /-- The store after the promise passed to `event.waitUntil` settled. -/
  caches : CacheStorage
  /-- Whether `self.skipWaiting()` was called. -/
  skipWaiting : Bool
  /-- Whether the promise passed to `event.waitUntil` was fulfilled (install succeeded). -/
  installed : Bool
  calls : List CacheCall
deriving DecidableEq, Repr

/-- Source: the `install` listener, for a cache name and a manifest:
`caches.open(name).then(cache => cache.addAll(urls)).then(() => self.skipWaiting())`. -/
def installWith (name : String) (urls : List String) (net : String → Option Response)
    (s : CacheStorage) : InstallResult :=
  let s1 := cachesOpen s name
  let calls := [CacheCall.opened name, CacheCall.addedAll name urls]
  let cache := (cachesGet s1 name).getD []
  match cacheAddAll net urls cache with
  | none => ⟨s1, false, false, calls⟩
  | some cache1 => ⟨cachesUpdate s1 name (fun _ => cache1), true, true, calls⟩

/-- Source: `self.addEventListener('install', ...)` with `CACHE_NAME` and `urlsToCache`. -/
def installHandler (net : String → Option Response) (s : CacheStorage) : InstallResult :=
  installWith CACHE_NAME urlsToCache net s

/-! ## The activate listener -/

/-- What the activate listener leaves behind. -/
structure ActivateResult where
  caches : CacheStorage
  calls : List CacheCall
deriving DecidableEq, Repr

/-- The body of `cacheNames.map(...)`: each name other than `CACHE_NAME` is deleted. -/
def deleteStale : List String → CacheStorage → CacheStorage × List CacheCall
  | [], s => (s, [])
  | cacheName :: rest, s =>
    if cacheName ≠ CACHE_NAME then
      let r := deleteStale rest (cachesDelete s cacheName)
      (r.1, CacheCall.deleted cacheName :: r.2)
    else deleteStale rest s

/-- Source: the `activate` listener: `caches.keys().then(names => Promise.all(names.map(...)))`. -/
def activateHandler (s : CacheStorage) : ActivateResult :=
  let r := deleteStale (cachesKeys s) s
  ⟨r.1, CacheCall.keys :: r.2⟩

/-! ## The fetch listener -/

/-- What the page gets for its request. -/
inductive Reply where
  /-- The listener returned without `event.respondWith`: the browser performs the request
  itself, as if there were no service worker. -/
  | passthrough
  /-- The promise given to `respondWith` resolved with this response. -/
  | response (r : Response)
  /-- The promise given to `respondWith` resolved with `undefined`: the request fails. -/
  | noResponse
deriving DecidableEq, Repr

/-- What the fetch listener leaves behind. -/
structure FetchResult where
  reply : Reply
  /-- The store once the write started by the listener, if any, has settled. -/
  caches : CacheStorage
  calls : List CacheCall
deriving DecidableEq, Repr

/-- Source: the `fetch` listener.  `net` is the outcome of `fetch(event.request)`. -/
def fetchHandler (request : Request) (net : Option Response) (s : CacheStorage) : FetchResult :=
  if request.method ≠ "GET" then ⟨Reply.passthrough, s, []⟩
  else
    match net with
    | some response =>
      let s1 := cachesOpen s CACHE_NAME
      let s2 := cachesUpdate s1 CACHE_NAME (fun cache => cachePut cache request.url response)
      ⟨Reply.response response, s2,
        [CacheCall.opened CACHE_NAME, CacheCall.put CACHE_NAME request.url response]⟩
    | none =>
      match cachesMatch s request.url with
      | some response => ⟨Reply.response response, s, [CacheCall.matched request.url]⟩
      | none =>
        match cachesMatch s OFFLINE_URL with
        | some shell =>
          ⟨Reply.response shell, s, [CacheCall.matched request.url, CacheCall.matched OFFLINE_URL]⟩
        | none =>
          ⟨Reply.noResponse, s, [CacheCall.matched request.url, CacheCall.matched OFFLINE_URL]⟩

/-- What the page finally receives: the reply of the listener, or for a passthrough the
outcome of the browser's own network request. -/
def delivered (net : Option Response) : Reply → Option Response
  | Reply.passthrough => net
  | Reply.response r => some r
  | Reply.noResponse => none

/-! ## Specification vocabulary -/

/-- Some generation of the store holds an entry for `key` with the response `r`. -/
def Stored (s : CacheStorage) (key : String) (r : Response) : Prop :=
  ∃ g ∈ s, (key, r) ∈ g.2

/-- The generations of the store other than `CACHE_NAME` hold no entry for `key`. -/
def OnlyActiveHolds (s : CacheStorage) (key : String) : Prop :=
  ∀ g ∈ s, g.1 ≠ CACHE_NAME → cacheMatch g.2 key = none

/-- The generations named `CACHE_NAME`, with their contents: what two stores that agree on
the active generation have in common. -/
def activePart : CacheStorage → CacheStorage
  | [] => []
  | g :: gs => if g.1 = CACHE_NAME then g :: activePart gs else activePart gs

/-- A generation listed before `CACHE_NAME` (any generation, when none has that name)
holds an entry for `key`: `caches.match(key)` finds that entry first. -/
def staleShadows : CacheStorage → String → Bool
  | [], _ => false
  | g :: gs, key =>
    if g.1 = CACHE_NAME then false
    else if (cacheMatch g.2 key).isSome then true
    else staleShadows gs key

/-- A fetch of the install step failed: the promise was rejected, or it resolved with a
response that `addAll` refuses. -/
def fetchFailed (o : Option Response) : Bool :=
  match o with
  | none => true
  | some r => !addAllAccepts r

/-! ## Lemmas on the Cache API model -/

theorem cacheMatch_none_iff (c : Cache) (key : String) :
    cacheMatch c key = none ↔ ∀ r, (key, r) ∉ c := by
  induction c with
  | nil => simp [cacheMatch]
  | cons e es ih =>
    obtain ⟨k, v⟩ := e
    by_cases hk : k = key
    · subst hk
      simp only [cacheMatch, if_true]
      constructor
      · intro h; cases h
      · intro h; exact absurd (List.mem_cons_self _ _) (h v)
    · simp only [cacheMatch, if_neg hk, ih]
      constructor
      · intro h r hr
        rcases List.mem_cons.mp hr with heq | hmem
        · exact hk (by cases heq; rfl)
        · exact h r hmem
      · intro h r hr
        exact h r (List.mem_cons_of_mem _ hr)

theorem cacheMatch_mem (c : Cache) (key : String) (r : Response)
    (h : cacheMatch c key = some r) : (key, r) ∈ c := by
  induction c with
  | nil => simp [cacheMatch] at h
  | cons e es ih =>
    obtain ⟨k, v⟩ := e
    by_cases hk : k = key
    · subst hk
      simp only [cacheMatch, if_true, Option.some.injEq] at h
      subst h
      exact List.mem_cons_self _ _
    · simp only [cacheMatch, if_neg hk] at h
      exact List.mem_cons_of_mem _ (ih h)

theorem cachesMatch_none_iff (s : CacheStorage) (key : String) :
    cachesMatch s key = none ↔ ∀ g ∈ s, cacheMatch g.2 key = none := by
  induction s with
  | nil => simp [cachesMatch]
  | cons g gs ih =>
    cases hg : cacheMatch g.2 key with
    | none => simp [cachesMatch, hg, ih]
    | some r => simp [cachesMatch, hg]

theorem cachesMatch_stored (s : CacheStorage) (key : String) (r : Response)
    (h : cachesMatch s key = some r) : Stored s key r := by
  induction s with
  | nil => simp [cachesMatch] at h
  | cons g gs ih =>
    cases hg : cacheMatch g.2 key with
    | none =>
      simp only [cachesMatch, hg] at h
      obtain ⟨g1, hg1, hmem⟩ := ih h
      exact ⟨g1, List.mem_cons_of_mem _ hg1, hmem⟩
    | some r1 =>
      simp only [cachesMatch, hg, Option.some.injEq] at h
      subst h
      exact ⟨g, List.mem_cons_self _ _, cacheMatch_mem _ _ _ hg⟩

theorem cachesMatch_none_of_not_stored (s : CacheStorage) (key : String)
    (h : ∀ r, ¬ Stored s key r) : cachesMatch s key = none := by
  rw [cachesMatch_none_iff]
  intro g hg
  rw [cacheMatch_none_iff]
  intro r hr
  exact h r ⟨g, hg, hr⟩

theorem cachesMatch_some_of_stored (s : CacheStorage) (key : String) (r : Response)
    (h : Stored s key r) : ∃ r0, cachesMatch s key = some r0 := by
  cases hm : cachesMatch s key with
  | some r0 => exact ⟨r0, rfl⟩
  | none =>
    obtain ⟨g, hg, hmem⟩ := h
    have h1 := (cachesMatch_none_iff s key).mp hm g hg
    exact absurd hmem ((cacheMatch_none_iff g.2 key).mp h1 r)

theorem cachesHas_append_self (s : CacheStorage) (name : String) (c : Cache) :
    cachesHas (s ++ [(name, c)]) name = true := by
  induction s with
  | nil => simp [cachesHas]
  | cons g gs ih =>
    by_cases hg : g.1 = name <;> simp [cachesHas, hg, ih]

theorem cachesHas_cachesOpen (s : CacheStorage) (name : String) :
    cachesHas (cachesOpen s name) name = true := by
  unfold cachesOpen
  by_cases h : cachesHas s name = true
  · simp [h]
  · simp [h, cachesHas_append_self]

theorem cachesGet_append_absent (s : CacheStorage) (name : String) (c : Cache)
    (h : cachesHas s name = false) : cachesGet (s ++ [(name, c)]) name = some c := by
  induction s with
  | nil => simp [cachesGet]
  | cons g gs ih =>
    by_cases hg : g.1 = name
    · simp [cachesHas, hg] at h
    · simp only [cachesHas, if_neg hg] at h
      simp [cachesGet, hg, ih h]

theorem cachesGet_none_of_absent (s : CacheStorage) (name : String)
    (h : cachesHas s name = false) : cachesGet s name = none := by
  induction s with
  | nil => simp [cachesGet]
  | cons g gs ih =>
    by_cases hg : g.1 = name
    · simp [cachesHas, hg] at h
    · simp only [cachesHas, if_neg hg] at h
      simp [cachesGet, hg, ih h]

theorem cachesGet_isSome_of_has (s : CacheStorage) (name : String)
    (h : cachesHas s name = true) : ∃ c, cachesGet s name = some c := by
  induction s with
  | nil => simp [cachesHas] at h
  | cons g gs ih =>
    by_cases hg : g.1 = name
    · exact ⟨g.2, by simp [cachesGet, hg]⟩
    · simp only [cachesHas, if_neg hg] at h
      obtain ⟨c, hc⟩ := ih h
      exact ⟨c, by simp [cachesGet, hg, hc]⟩

theorem cachesGet_cachesOpen_self (s : CacheStorage) (name : String) :
    cachesGet (cachesOpen s name) name = some ((cachesGet s name).getD []) := by
  unfold cachesOpen
  cases h : cachesHas s name with
  | true =>
    obtain ⟨c, hc⟩ := cachesGet_isSome_of_has s name h
    simp [hc]
  | false =>
    simp [cachesGet_append_absent s name [] h, cachesGet_none_of_absent s name h]

theorem cachesGet_append_other (s : CacheStorage) (name other : String) (c : Cache)
    (h : other ≠ name) : cachesGet (s ++ [(name, c)]) other = cachesGet s other := by
  induction s with
  | nil => simp [cachesGet, h.symm]
  | cons g gs ih =>
    by_cases hg : g.1 = other <;> simp [cachesGet, hg, ih]

theorem cachesGet_cachesOpen_other (s : CacheStorage) (name other : String)
    (h : other ≠ name) : cachesGet (cachesOpen s name) other = cachesGet s other := by
  unfold cachesOpen
  cases hh : cachesHas s name with
  | true => simp
  | false => simp [cachesGet_append_other s name other [] h]

theorem cachesMatch_append_empty (s : CacheStorage) (name key : String) :
    cachesMatch (s ++ [(name, [])]) key = cachesMatch s key := by
  induction s with
  | nil => simp [cachesMatch, cacheMatch]
  | cons g gs ih =>
    cases hg : cacheMatch g.2 key <;> simp [cachesMatch, hg, ih]

theorem cachesMatch_cachesOpen (s : CacheStorage) (name key : String) :
    cachesMatch (cachesOpen s name) key = cachesMatch s key := by
  unfold cachesOpen
  cases hh : cachesHas s name with
  | true => simp
  | false => simp [cachesMatch_append_empty]

theorem fetchAll_none_of_failed (net : String → Option Response) (urls : List String)
    (h : ∃ u ∈ urls, fetchFailed (net u) = true) : fetchAll net urls = none := by
  induction urls with
  | nil => simp at h
  | cons u us ih =>
    cases hu : net u with
    | none => simp [fetchAll, hu]
    | some r =>
      by_cases hacc : addAllAccepts r = true
      · have hrest : ∃ v ∈ us, fetchFailed (net v) = true := by
          obtain ⟨v, hv, hf⟩ := h
          rcases List.mem_cons.mp hv with rfl | hmem
          · simp [fetchFailed, hu, hacc] at hf
          · exact ⟨v, hmem, hf⟩
        simp [fetchAll, hu, hacc, ih hrest]
      · simp [fetchAll, hu, hacc]

theorem cacheMatch_append (c1 c2 : Cache) (key : String) :
    cacheMatch (c1 ++ c2) key
      = match cacheMatch c1 key with
        | some r => some r
        | none => cacheMatch c2 key := by
  induction c1 with
  | nil => simp [cacheMatch]
  | cons e es ih =>
    by_cases he : e.1 = key <;> simp [cacheMatch, he, ih]

theorem cacheMatch_cacheRemove_self (c : Cache) (key : String) :
    cacheMatch (cacheRemove c key) key = none := by
  induction c with
  | nil => rfl
  | cons e es ih =>
    by_cases he : e.1 = key <;> simp [cacheRemove, cacheMatch, he, ih]

theorem cacheMatch_cacheRemove_other (c : Cache) (key other : String) (h : other ≠ key) :
    cacheMatch (cacheRemove c key) other = cacheMatch c other := by
  induction c with
  | nil => rfl
  | cons e es ih =>
    by_cases he : e.1 = key
    · have hne : ¬ e.1 = other := by rw [he]; exact fun e1 => h e1.symm
      simp only [cacheRemove, if_pos he, cacheMatch, if_neg hne, ih]
    · simp only [cacheRemove, if_neg he, cacheMatch, ih]

theorem cacheMatch_cacheWrite_self (c : Cache) (key : String) (r : Response) :
    cacheMatch (cacheWrite c key r) key = some r := by
  simp [cacheWrite, cacheMatch_append, cacheMatch_cacheRemove_self, cacheMatch]

theorem cacheMatch_cacheWrite_other (c : Cache) (key other : String) (r : Response)
    (h : other ≠ key) : cacheMatch (cacheWrite c key r) other = cacheMatch c other := by
  have hne : ¬ key = other := fun e => h e.symm
  rw [cacheWrite, cacheMatch_append, cacheMatch_cacheRemove_other c key other h]
  cases hm : cacheMatch c other <;> simp [cacheMatch, hne]

theorem cachesGet_cachesUpdate_self (s : CacheStorage) (name : String) (f : Cache → Cache) :
    cachesGet (cachesUpdate s name f) name = (cachesGet s name).map f := by
  induction s with
  | nil => rfl
  | cons g gs ih =>
    by_cases hg : g.1 = name <;> simp [cachesUpdate, cachesGet, hg, ih]

/-! ## The install listener: a failed install -/

/-- C3, as stated, fails: with the network down (every manifest fetch rejected) and a
store whose generation `CACHE_NAME` already holds an entry for `/`, the install reports
failure, yet the generation `CACHE_NAME` is still there with its entry, and the fallback
lookup of the fetch listener returns it. -/
theorem install_failure_keeps_entries_counterexample :
    (installHandler (fun _ => none) [(CACHE_NAME, [("/", ⟨200, "old"⟩)])]).installed = false ∧
    cachesGet (installHandler (fun _ => none) [(CACHE_NAME, [("/", ⟨200, "old"⟩)])]).caches
      CACHE_NAME = some [("/", ⟨200, "old"⟩)] ∧
    (fetchHandler (Request.mk "GET" "/") none
      (installHandler (fun _ => none) [(CACHE_NAME, [("/", ⟨200, "old"⟩)])]).caches).reply
      = Reply.response ⟨200, "old"⟩ := by
  decide

/-- C3, amended (atomic install).  For every manifest and every prior store, if the fetch of
at least one manifest entry fails (it is rejected, or `addAll` refuses its response), then
the install reports failure and `skipWaiting` is not reached, and no entry is written: the
store afterwards is the prior store with the generation `CACHE_NAME` opened, which holds
exactly the entries it held before (none if it did not exist), every other generation is as
before, and `caches.match` finds for every key what it found before. -/
theorem install_failure_atomic (urls : List String) (net : String → Option Response)
    (s : CacheStorage) (hfail : ∃ u ∈ urls, fetchFailed (net u) = true) :
    (installWith CACHE_NAME urls net s).installed = false ∧
    (installWith CACHE_NAME urls net s).skipWaiting = false ∧
    (installWith CACHE_NAME urls net s).caches = cachesOpen s CACHE_NAME ∧
    cachesGet (installWith CACHE_NAME urls net s).caches CACHE_NAME
      = some ((cachesGet s CACHE_NAME).getD []) ∧
    (∀ name, name ≠ CACHE_NAME →
      cachesGet (installWith CACHE_NAME urls net s).caches name = cachesGet s name) ∧
    (∀ key, cachesMatch (installWith CACHE_NAME urls net s).caches key = cachesMatch s key) := by
  have hres : installWith CACHE_NAME urls net s
      = ⟨cachesOpen s CACHE_NAME, false, false,
          [CacheCall.opened CACHE_NAME, CacheCall.addedAll CACHE_NAME urls]⟩ := by
    simp [installWith, cacheAddAll, fetchAll_none_of_failed net urls hfail]
  rw [hres]
  refine ⟨rfl, rfl, rfl, cachesGet_cachesOpen_self s CACHE_NAME, ?_, ?_⟩
  · intro name hname
    exact cachesGet_cachesOpen_other s CACHE_NAME name hname
  · intro key
    exact cachesMatch_cachesOpen s CACHE_NAME key

/-- Instance of the amended C3: the stylesheet answers 404, the store was empty; the
install fails and the generation exists, empty. -/
theorem install_failure_atomic_witness :
    (∃ u ∈ urlsToCache, fetchFailed
      ((fun u => if u = "/css/styles.css" then some (Response.mk 404 "") else
        some (Response.mk 200 u)) u) = true) ∧
    (installWith CACHE_NAME urlsToCache
      (fun u => if u = "/css/styles.css" then some (Response.mk 404 "") else
        some (Response.mk 200 u)) []).caches = cachesOpen [] CACHE_NAME :=
  ⟨⟨"/css/styles.css", by decide, by decide⟩,
    (install_failure_atomic urlsToCache
      (fun u => if u = "/css/styles.css" then some (Response.mk 404 "") else
        some (Response.mk 200 u)) [] ⟨"/css/styles.css", by decide, by decide⟩).2.2.1⟩

/-! ## The activate listener -/

theorem activePart_cachesDelete (s : CacheStorage) (name : String) (h : name ≠ CACHE_NAME) :
    activePart (cachesDelete s name) = activePart s := by
  induction s with
  | nil => rfl
  | cons g gs ih =>
    by_cases hg : g.1 = name
    · have hne : g.1 ≠ CACHE_NAME := by rw [hg]; exact h
      simp [cachesDelete, activePart, hg, ih, h]
    · simp only [cachesDelete, if_neg hg]
      by_cases hc : g.1 = CACHE_NAME <;> simp [activePart, hc, ih]

theorem mem_cachesDelete (s : CacheStorage) (name : String) (g : String × Cache)
    (h : g ∈ cachesDelete s name) : g ∈ s ∧ g.1 ≠ name := by
  induction s with
  | nil => simp [cachesDelete] at h
  | cons g0 gs ih =>
    by_cases hg : g0.1 = name
    · simp only [cachesDelete, if_pos hg] at h
      exact ⟨List.mem_cons_of_mem _ (ih h).1, (ih h).2⟩
    · simp only [cachesDelete, if_neg hg] at h
      rcases List.mem_cons.mp h with rfl | hmem
      · exact ⟨List.mem_cons_self _ _, hg⟩
      · exact ⟨List.mem_cons_of_mem _ (ih hmem).1, (ih hmem).2⟩

theorem activePart_deleteStale (names : List String) (s : CacheStorage) :
    activePart (deleteStale names s).1 = activePart s := by
  induction names generalizing s with
  | nil => rfl
  | cons n rest ih =>
    by_cases hn : n = CACHE_NAME
    · simp [deleteStale, hn, ih]
    · simp [deleteStale, hn, ih, activePart_cachesDelete s n hn]

theorem mem_deleteStale (names : List String) (s : CacheStorage) (g : String × Cache)
    (h : g ∈ (deleteStale names s).1) : g ∈ s ∧ (g.1 = CACHE_NAME ∨ g.1 ∉ names) := by
  induction names generalizing s with
  | nil => exact ⟨h, Or.inr (List.not_mem_nil _)⟩
  | cons n rest ih =>
    by_cases hn : n = CACHE_NAME
    · simp only [deleteStale, hn, ne_eq, not_true_eq_false, if_false] at h
      obtain ⟨h1, h2⟩ := ih s h
      refine ⟨h1, ?_⟩
      rcases h2 with h2 | h2
      · exact Or.inl h2
      · by_cases hc : g.1 = CACHE_NAME
        · exact Or.inl hc
        · right
          simp [hn, hc, h2]
    · simp only [deleteStale, ne_eq, hn, not_false_eq_true, if_true] at h
      obtain ⟨h1, h2⟩ := ih (cachesDelete s n) h
      obtain ⟨h3, h4⟩ := mem_cachesDelete s n g h1
      refine ⟨h3, ?_⟩
      rcases h2 with h2 | h2
      · exact Or.inl h2
      · right
        simp [h4, h2]

theorem mem_cachesKeys (s : CacheStorage) (g : String × Cache) (h : g ∈ s) :
    g.1 ∈ cachesKeys s := by
  induction s with
  | nil => simp at h
  | cons g0 gs ih =>
    rcases List.mem_cons.mp h with rfl | hmem
    · simp [cachesKeys]
    · simp [cachesKeys, ih hmem]

theorem activePart_eq_self (s : CacheStorage) (h : ∀ g ∈ s, g.1 = CACHE_NAME) :
    activePart s = s := by
  induction s with
  | nil => rfl
  | cons g gs ih =>
    have hg : g.1 = CACHE_NAME := h g (List.mem_cons_self _ _)
    simp [activePart, hg, ih (fun g1 h1 => h g1 (List.mem_cons_of_mem _ h1))]

/-- The store after activation is the part of the store named `CACHE_NAME`. -/
theorem activateHandler_caches (s : CacheStorage) :
    (activateHandler s).caches = activePart s := by
  have hall : ∀ g ∈ (deleteStale (cachesKeys s) s).1, g.1 = CACHE_NAME := by
    intro g hg
    obtain ⟨h1, h2⟩ := mem_deleteStale (cachesKeys s) s g hg
    rcases h2 with h2 | h2
    · exact h2
    · exact absurd (mem_cachesKeys s g h1) h2
  show (deleteStale (cachesKeys s) s).1 = activePart s
  rw [← activePart_eq_self _ hall, activePart_deleteStale]

theorem cachesGet_activePart (s : CacheStorage) :
    cachesGet (activePart s) CACHE_NAME = cachesGet s CACHE_NAME := by
  induction s with
  | nil => rfl
  | cons g gs ih =>
    by_cases hg : g.1 = CACHE_NAME <;> simp [activePart, cachesGet, hg, ih]

theorem cachesHas_activePart_other (s : CacheStorage) (name : String)
    (h : name ≠ CACHE_NAME) : cachesHas (activePart s) name = false := by
  induction s with
  | nil => rfl
  | cons g gs ih =>
    by_cases hg : g.1 = CACHE_NAME
    · have : ¬ CACHE_NAME = name := fun e => h e.symm
      simp [activePart, cachesHas, hg, ih, this]
    · simp [activePart, hg, ih]

theorem activePart_eq_nil (s : CacheStorage) (h : CACHE_NAME ∉ cachesKeys s) :
    activePart s = [] := by
  induction s with
  | nil => rfl
  | cons g gs ih =>
    simp only [cachesKeys, List.mem_cons, not_or] at h
    have hg : ¬ g.1 = CACHE_NAME := fun e => h.1 e.symm
    simp [activePart, hg, ih h.2]

theorem cachesKeys_activePart (s : CacheStorage) (hwf : (cachesKeys s).Nodup)
    (hact : CACHE_NAME ∈ cachesKeys s) : cachesKeys (activePart s) = [CACHE_NAME] := by
  induction s with
  | nil => simp [cachesKeys] at hact
  | cons g gs ih =>
    simp only [cachesKeys, List.nodup_cons] at hwf
    by_cases hg : g.1 = CACHE_NAME
    · have hnot : CACHE_NAME ∉ cachesKeys gs := by rw [← hg]; exact hwf.1
      simp [activePart, hg, cachesKeys, activePart_eq_nil gs hnot]
    · simp only [cachesKeys, List.mem_cons] at hact
      have hin : CACHE_NAME ∈ cachesKeys gs := by
        rcases hact with h1 | h1
        · exact absurd h1.symm hg
        · exact h1
      simp [activePart, hg, ih hwf.2 hin]

/-- C4, as stated, fails: from a store whose only generation is `shoresquad-v0`, the
activate listener deletes it and creates nothing, so `caches.keys()` is empty afterwards
and does not contain `CACHE_NAME`. -/
theorem activate_without_active_counterexample :
    cachesKeys (activateHandler [("shoresquad-v0", [("/", ⟨200, "old"⟩)])]).caches = [] ∧
    CACHE_NAME ∉ cachesKeys (activateHandler [("shoresquad-v0", [("/", ⟨200, "old"⟩)])]).caches := by
  decide

/-- C4, amended (generation exclusivity).  For every store (generation names distinct) that
contains a generation named `CACHE_NAME`, after the activate listener `caches.keys()` is
exactly `[CACHE_NAME]`, no generation of another name exists, and the generation
`CACHE_NAME` holds the entries it held before. -/
theorem activate_exclusive (s : CacheStorage) (hwf : (cachesKeys s).Nodup)
    (hact : CACHE_NAME ∈ cachesKeys s) :
    cachesKeys (activateHandler s).caches = [CACHE_NAME] ∧
    (∀ name, name ≠ CACHE_NAME → cachesHas (activateHandler s).caches name = false) ∧
    cachesGet (activateHandler s).caches CACHE_NAME = cachesGet s CACHE_NAME := by
  rw [activateHandler_caches]
  exact ⟨cachesKeys_activePart s hwf hact, cachesHas_activePart_other s, cachesGet_activePart s⟩

/-- Instance of the amended C4: two stale generations around the active one. -/
theorem activate_exclusive_witness :
    (cachesKeys [("shoresquad-v0", [("/", ⟨200, "old"⟩)]), (CACHE_NAME, [("/", ⟨200, "new"⟩)]),
      ("tiles", [])]).Nodup ∧
    CACHE_NAME ∈ cachesKeys [("shoresquad-v0", [("/", ⟨200, "old"⟩)]),
      (CACHE_NAME, [("/", ⟨200, "new"⟩)]), ("tiles", [])] ∧
    cachesKeys (activateHandler [("shoresquad-v0", [("/", ⟨200, "old"⟩)]),
      (CACHE_NAME, [("/", ⟨200, "new"⟩)]), ("tiles", [])]).caches = [CACHE_NAME] :=
  ⟨by decide, by decide,
    (activate_exclusive [("shoresquad-v0", [("/", ⟨200, "old"⟩)]),
      (CACHE_NAME, [("/", ⟨200, "new"⟩)]), ("tiles", [])] (by decide) (by decide)).1⟩

/-! ## The fetch listener: fallback order, network first, frame conditions -/

theorem fetchHandler_rejected_frame (request : Request) (s : CacheStorage) :
    (fetchHandler request none s).caches = s ∧
    ∀ c ∈ (fetchHandler request none s).calls, c.isWrite = false := by
  unfold fetchHandler
  split
  · simp
  · cases h1 : cachesMatch s request.url with
    | some r => simp [CacheCall.isWrite]
    | none =>
      cases h2 : cachesMatch s OFFLINE_URL with
      | some r => simp [CacheCall.isWrite]
      | none => simp [CacheCall.isWrite]

theorem cachesMatch_first_hit (pre post : CacheStorage) (g : String × Cache) (key : String)
    (r : Response) (hpre : ∀ g1 ∈ pre, cacheMatch g1.2 key = none)
    (hg : cacheMatch g.2 key = some r) : cachesMatch (pre ++ g :: post) key = some r := by
  induction pre with
  | nil => simp [cachesMatch, hg]
  | cons g0 gs ih =>
    have h0 : cacheMatch g0.2 key = none := hpre g0 (List.mem_cons_self _ _)
    have hrest : ∀ g1 ∈ gs, cacheMatch g1.2 key = none :=
      fun g1 h1 => hpre g1 (List.mem_cons_of_mem _ h1)
    simp [cachesMatch, h0, ih hrest]

theorem cachesMatch_of_only_stored (s : CacheStorage) (key : String) (r : Response)
    (hr : Stored s key r) (honly : ∀ r1, Stored s key r1 → r1 = r) :
    cachesMatch s key = some r := by
  obtain ⟨r0, h0⟩ := cachesMatch_some_of_stored s key r hr
  rw [h0, honly r0 (cachesMatch_stored s key r0 h0)]

theorem fetchHandler_offline_shell (request : Request) (s : CacheStorage) (shell : Response)
    (hget : request.method = "GET") (hmiss : cachesMatch s request.url = none)
    (hshell : cachesMatch s OFFLINE_URL = some shell) :
    (fetchHandler request none s).reply = Reply.response shell := by
  simp [fetchHandler, hget, hmiss, hshell]

/-- C1, as stated, fails: the generations `shoresquad-v0` and `CACHE_NAME` both hold an
entry for `/a`.  The entry `new` of `CACHE_NAME` is a stored entry for `/a`, yet with the
network down the reply is the entry `old` of `shoresquad-v0`, which `caches.match` finds
first. -/
theorem fetch_fallback_shadowed_counterexample :
    Stored [("shoresquad-v0", [("/a", ⟨200, "old"⟩)]), (CACHE_NAME, [("/a", ⟨200, "new"⟩)])]
      "/a" ⟨200, "new"⟩ ∧
    cachesGet [("shoresquad-v0", [("/a", ⟨200, "old"⟩)]), (CACHE_NAME, [("/a", ⟨200, "new"⟩)])]
      CACHE_NAME = some [("/a", ⟨200, "new"⟩)] ∧
    (fetchHandler (Request.mk "GET" "/a") none
      [("shoresquad-v0", [("/a", ⟨200, "old"⟩)]), (CACHE_NAME, [("/a", ⟨200, "new"⟩)])]).reply
      = Reply.response ⟨200, "old"⟩ ∧
    Reply.response ⟨200, "old"⟩ ≠ Reply.response ⟨200, "new"⟩ :=
  ⟨⟨(CACHE_NAME, [("/a", ⟨200, "new"⟩)]), by simp, by simp⟩, by decide, by decide, by decide⟩

/-- C1, amended (fallback order).  For a GET request with key `K` and any store, when the
network fetch is rejected: (a) the reply is the entry for `K` of the first generation, in
`caches.keys()` order, that holds one, and the fallback document is not looked up; so when
`r` is the only stored entry for `K`, the reply is exactly `r`; (b) if no generation holds an
entry for `K`, the reply is the entry for the fallback document `/index.html` of the first
generation that holds one; so when `shell` is its only stored entry, the reply is exactly
`shell`. -/
theorem fetch_fallback_first_hit (request : Request) (s : CacheStorage)
    (hget : request.method = "GET") :
    (∀ pre g post r, s = pre ++ g :: post →
      (∀ g1 ∈ pre, cacheMatch g1.2 request.url = none) → cacheMatch g.2 request.url = some r →
      (fetchHandler request none s).reply = Reply.response r ∧
      (fetchHandler request none s).calls = [CacheCall.matched request.url]) ∧
    (∀ r, Stored s request.url r → (∀ r1, Stored s request.url r1 → r1 = r) →
      (fetchHandler request none s).reply = Reply.response r ∧
      (fetchHandler request none s).calls = [CacheCall.matched request.url]) ∧
    ((∀ r, ¬ Stored s request.url r) →
      (∀ pre g post shell, s = pre ++ g :: post →
        (∀ g1 ∈ pre, cacheMatch g1.2 OFFLINE_URL = none) → cacheMatch g.2 OFFLINE_URL = some shell →
        (fetchHandler request none s).reply = Reply.response shell) ∧
      (∀ shell, Stored s OFFLINE_URL shell → (∀ r1, Stored s OFFLINE_URL r1 → r1 = shell) →
        (fetchHandler request none s).reply = Reply.response shell)) := by
  have hhit : ∀ r, cachesMatch s request.url = some r →
      (fetchHandler request none s).reply = Reply.response r ∧
      (fetchHandler request none s).calls = [CacheCall.matched request.url] := by
    intro r h
    constructor <;> simp [fetchHandler, hget, h]
  refine ⟨?_, ?_, ?_⟩
  · intro pre g post r hs hpre hg
    apply hhit
    rw [hs]
    exact cachesMatch_first_hit pre post g request.url r hpre hg
  · intro r hr honly
    exact hhit r (cachesMatch_of_only_stored s request.url r hr honly)
  · intro hmiss
    have hnone := cachesMatch_none_of_not_stored s request.url hmiss
    constructor
    · intro pre g post shell hs hpre hg
      apply fetchHandler_offline_shell request s shell hget hnone
      rw [hs]
      exact cachesMatch_first_hit pre post g OFFLINE_URL shell hpre hg
    · intro shell hshell honly
      exact fetchHandler_offline_shell request s shell hget hnone
        (cachesMatch_of_only_stored s OFFLINE_URL shell hshell honly)

/-- Instance of the amended C1, both parts, over a store with a stale generation in front:
`/css/styles.css` is answered with the entry of the first generation that holds it, and
`/missing.png`, stored nowhere, with the stored fallback document. -/
theorem fetch_fallback_first_hit_witness :
    (Request.mk "GET" "/css/styles.css").method = "GET" ∧
    (Request.mk "GET" "/missing.png").method = "GET" ∧
    (fetchHandler (Request.mk "GET" "/css/styles.css") none
        ([("tiles", [("/t", ⟨200, "tile"⟩)])] ++
          ("shoresquad-v0", [("/css/styles.css", ⟨200, "css0"⟩)]) ::
          [(CACHE_NAME, [("/index.html", ⟨200, "shell"⟩), ("/css/styles.css", ⟨200, "css"⟩)])])).reply
      = Reply.response ⟨200, "css0"⟩ ∧
    (fetchHandler (Request.mk "GET" "/missing.png") none
        ([("tiles", [("/t", ⟨200, "tile"⟩)])] ++
          (CACHE_NAME, [("/index.html", ⟨200, "shell"⟩), ("/css/styles.css", ⟨200, "css"⟩)]) ::
          [])).reply
      = Reply.response ⟨200, "shell"⟩ :=
  ⟨by decide, by decide,
    ((fetch_fallback_first_hit (Request.mk "GET" "/css/styles.css")
        ([("tiles", [("/t", ⟨200, "tile"⟩)])] ++
          ("shoresquad-v0", [("/css/styles.css", ⟨200, "css0"⟩)]) ::
          [(CACHE_NAME, [("/index.html", ⟨200, "shell"⟩), ("/css/styles.css", ⟨200, "css"⟩)])])
        (by decide)).1
      [("tiles", [("/t", ⟨200, "tile"⟩)])]
      ("shoresquad-v0", [("/css/styles.css", ⟨200, "css0"⟩)])
      [(CACHE_NAME, [("/index.html", ⟨200, "shell"⟩), ("/css/styles.css", ⟨200, "css"⟩)])]
      ⟨200, "css0"⟩ rfl (by decide) (by decide)).1,
    ((fetch_fallback_first_hit (Request.mk "GET" "/missing.png")
        ([("tiles", [("/t", ⟨200, "tile"⟩)])] ++
          (CACHE_NAME, [("/index.html", ⟨200, "shell"⟩), ("/css/styles.css", ⟨200, "css"⟩)]) ::
          [])
        (by decide)).2.2
      (by
        rintro r ⟨g, hg, hmem⟩
        simp only [List.singleton_append, List.mem_cons, List.mem_singleton, List.not_mem_nil,
          or_false] at hg
        rcases hg with rfl | rfl
        · simp at hmem
        · simp at hmem)).1
      [("tiles", [("/t", ⟨200, "tile"⟩)])]
      (CACHE_NAME, [("/index.html", ⟨200, "shell"⟩), ("/css/styles.css", ⟨200, "css"⟩)])
      [] ⟨200, "shell"⟩ rfl (by decide) (by decide)⟩

/-- C2 (network first).  For a GET request and any store, also one that holds an entry for
the request, when the network fetch resolves with `response` the reply is `response`, and
the listener makes no lookup in the store. -/
theorem fetch_network_first (request : Request) (response : Response) (s : CacheStorage)
    (hget : request.method = "GET") :
    (fetchHandler request (some response) s).reply = Reply.response response ∧
    ∀ c ∈ (fetchHandler request (some response) s).calls, c.isRead = false := by
  simp [fetchHandler, hget, CacheCall.isRead]

/-- Instance of C2: a stored stylesheet does not shadow the live one. -/
theorem fetch_network_first_witness :
    (Request.mk "GET" "/css/styles.css").method = "GET" ∧
    (fetchHandler (Request.mk "GET" "/css/styles.css") (some ⟨200, "live"⟩)
        [(CACHE_NAME, [("/css/styles.css", ⟨200, "stored"⟩)])]).reply
      = Reply.response ⟨200, "live"⟩ :=
  ⟨by decide,
    (fetch_network_first (Request.mk "GET" "/css/styles.css") ⟨200, "live"⟩
      [(CACHE_NAME, [("/css/styles.css", ⟨200, "stored"⟩)])] (by decide)).1⟩

/-- C7 (a failed fetch leaves the store unchanged).  For every request and every store,
when the network fetch is rejected the listener makes no call that can change the store
(no open, put, addAll or delete) and the store afterwards is the store before. -/
theorem fetch_failure_frame (request : Request) (s : CacheStorage) :
    (fetchHandler request none s).caches = s ∧
    ∀ c ∈ (fetchHandler request none s).calls, c.isWrite = false :=
  fetchHandler_rejected_frame request s

/-- C8 (non-GET bypass).  For a request whose method is not GET, whatever the network
outcome: the listener returns without `respondWith`, makes no call on the store, leaves the
store as it was, and what the page receives is the outcome of the network request, the same
for any two stores. -/
theorem fetch_non_get_bypass (request : Request) (net : Option Response) (s : CacheStorage)
    (hmethod : request.method ≠ "GET") :
    (fetchHandler request net s).reply = Reply.passthrough ∧
    (fetchHandler request net s).calls = [] ∧
    (fetchHandler request net s).caches = s ∧
    delivered net (fetchHandler request net s).reply = net ∧
    ∀ s2, (fetchHandler request net s2).reply = (fetchHandler request net s).reply := by
  simp [fetchHandler, hmethod, delivered]

/-- Instance of C8: a POST whose url is stored is not answered from the store. -/
theorem fetch_non_get_bypass_witness :
    (Request.mk "POST" "/index.html").method ≠ "GET" ∧
    (fetchHandler (Request.mk "POST" "/index.html") none
        [(CACHE_NAME, [("/index.html", ⟨200, "shell"⟩)])]).reply = Reply.passthrough :=
  ⟨by decide,
    (fetch_non_get_bypass (Request.mk "POST" "/index.html") none
      [(CACHE_NAME, [("/index.html", ⟨200, "shell"⟩)])] (by decide)).1⟩

/-! ## The fetch listener: what is written, and what a later offline request gets -/

theorem staleShadows_append_active (s : CacheStorage) (key : String) (c : Cache) :
    staleShadows (s ++ [(CACHE_NAME, c)]) key = staleShadows s key := by
  induction s with
  | nil => simp [staleShadows]
  | cons g gs ih =>
    by_cases hg : g.1 = CACHE_NAME
    · simp [staleShadows, hg]
    · cases hm : cacheMatch g.2 key <;> simp [staleShadows, hg, hm, ih]

theorem staleShadows_cachesOpen (s : CacheStorage) (key : String) :
    staleShadows (cachesOpen s CACHE_NAME) key = staleShadows s key := by
  unfold cachesOpen
  cases hh : cachesHas s CACHE_NAME with
  | true => simp
  | false => simp [staleShadows_append_active]

theorem cachesMatch_cachesUpdate_active (s : CacheStorage) (key : String) (r : Response)
    (f : Cache → Cache) (hf : ∀ c, cacheMatch (f c) key = some r)
    (hhas : cachesHas s CACHE_NAME = true) (hstale : staleShadows s key = false) :
    cachesMatch (cachesUpdate s CACHE_NAME f) key = some r := by
  induction s with
  | nil => simp [cachesHas] at hhas
  | cons g gs ih =>
    by_cases hg : g.1 = CACHE_NAME
    · simp [cachesUpdate, hg, cachesMatch, hf]
    · simp only [cachesHas, if_neg hg] at hhas
      cases hm : cacheMatch g.2 key with
      | some r1 => simp [staleShadows, hg, hm] at hstale
      | none =>
        simp only [staleShadows, if_neg hg, hm, Option.isSome_none, Bool.false_eq_true,
          if_false] at hstale
        simp [cachesUpdate, hg, cachesMatch, hm, ih hhas hstale]

theorem fetchHandler_offline_hit (request : Request) (s : CacheStorage) (r : Response)
    (hget : request.method = "GET") (h : cachesMatch s request.url = some r) :
    (fetchHandler request none s).reply = Reply.response r := by
  simp [fetchHandler, hget, h]

theorem cachePut_match (c : Cache) (key : String) (r : Response) (h : putAccepts r = true) :
    cacheMatch (cachePut c key r) key = some r := by
  simp [cachePut, h, cacheMatch_cacheWrite_self]

/-- C5, as stated, fails: a generation `shoresquad-v0` created before `CACHE_NAME` holds an
entry for `/a`.  The fetch of `/a` resolves with the response `new`, the write into
`CACHE_NAME` completes, and the next request for `/a` with the network down is answered
with the entry of `shoresquad-v0`, not with `new`. -/
theorem fetch_freshness_shadowed_counterexample :
    (fetchHandler (Request.mk "GET" "/a") (some ⟨200, "new"⟩)
      [("shoresquad-v0", [("/a", ⟨200, "old"⟩)])]).caches
      = [("shoresquad-v0", [("/a", ⟨200, "old"⟩)]), (CACHE_NAME, [("/a", ⟨200, "new"⟩)])] ∧
    (fetchHandler (Request.mk "GET" "/a") none
      (fetchHandler (Request.mk "GET" "/a") (some ⟨200, "new"⟩)
        [("shoresquad-v0", [("/a", ⟨200, "old"⟩)])]).caches).reply
      = Reply.response ⟨200, "old"⟩ ∧
    Reply.response ⟨200, "old"⟩ ≠ Reply.response ⟨200, "new"⟩ := by
  decide

/-- C5, amended (freshness round trip).  For every GET request with key `K` and every
response `R` whose write completes (`cache.put` does not refuse it), and every store in
which no generation listed before `CACHE_NAME` holds an entry for `K`: after the listener
ran for `K` with the network resolving with `R`, a run for `K` with the network rejected
replies `R`, whatever entry `K` had before. -/
theorem fetch_freshness (request : Request) (R : Response) (s : CacheStorage)
    (hget : request.method = "GET") (hput : putAccepts R = true)
    (hstale : staleShadows s request.url = false) :
    (fetchHandler request none (fetchHandler request (some R) s).caches).reply
      = Reply.response R := by
  have hcaches : (fetchHandler request (some R) s).caches
      = cachesUpdate (cachesOpen s CACHE_NAME) CACHE_NAME
          (fun cache => cachePut cache request.url R) := by
    simp [fetchHandler, hget]
  have hmatch : cachesMatch (fetchHandler request (some R) s).caches request.url = some R := by
    rw [hcaches]
    apply cachesMatch_cachesUpdate_active
    · intro c
      exact cachePut_match c request.url R hput
    · exact cachesHas_cachesOpen s CACHE_NAME
    · rw [staleShadows_cachesOpen]
      exact hstale
  exact fetchHandler_offline_hit request _ R hget hmatch

/-- Instance of the amended C5: the stored stylesheet is replaced by the fetched one. -/
theorem fetch_freshness_witness :
    (Request.mk "GET" "/css/styles.css").method = "GET" ∧
    putAccepts ⟨200, "new"⟩ = true ∧
    staleShadows [(CACHE_NAME, [("/css/styles.css", ⟨200, "old"⟩)]),
      ("tiles", [("/css/styles.css", ⟨200, "tile"⟩)])] "/css/styles.css" = false ∧
    (fetchHandler (Request.mk "GET" "/css/styles.css") none
      (fetchHandler (Request.mk "GET" "/css/styles.css") (some ⟨200, "new"⟩)
        [(CACHE_NAME, [("/css/styles.css", ⟨200, "old"⟩)]),
          ("tiles", [("/css/styles.css", ⟨200, "tile"⟩)])]).caches).reply
      = Reply.response ⟨200, "new"⟩ :=
  ⟨by decide, by decide, by decide,
    fetch_freshness (Request.mk "GET" "/css/styles.css") ⟨200, "new"⟩
      [(CACHE_NAME, [("/css/styles.css", ⟨200, "old"⟩)]),
        ("tiles", [("/css/styles.css", ⟨200, "tile"⟩)])] (by decide) (by decide) (by decide)⟩

/-- C6, as stated, fails: the fetch of `/a` resolves with status 404, and of `/b` with
status 500; the listener stores each response under its key in `CACHE_NAME`. -/
theorem fetch_stores_error_status_counterexample :
    (fetchHandler (Request.mk "GET" "/a") (some ⟨404, "not found"⟩) []).caches
      = [(CACHE_NAME, [("/a", ⟨404, "not found"⟩)])] ∧
    (fetchHandler (Request.mk "GET" "/b") (some ⟨500, "error"⟩)
      [(CACHE_NAME, [("/b", ⟨200, "good"⟩)])]).caches
      = [(CACHE_NAME, [("/b", ⟨500, "error"⟩)])] := by
  decide

/-- C6, amended (what the fetch listener stores).  For every GET request with key `K`: the
listener writes an entry for `K` only when the network fetch resolved with a response (a
rejected fetch leaves the store as it was and makes no put); and every response the fetch
resolves with, whatever its status, is stored under `K` in the generation `CACHE_NAME`,
unless `cache.put` refuses it (status 206). -/
theorem fetch_stores_resolved (request : Request) (net : Option Response) (s : CacheStorage)
    (hget : request.method = "GET") :
    (net = none → (fetchHandler request net s).caches = s ∧
      ∀ c ∈ (fetchHandler request net s).calls, c.isWrite = false) ∧
    (∀ r, net = some r → putAccepts r = true →
      ∃ c, cachesGet (fetchHandler request net s).caches CACHE_NAME = some c ∧
        cacheMatch c request.url = some r) := by
  constructor
  · intro hnet
    subst hnet
    exact fetchHandler_rejected_frame request s
  · intro r hnet hput
    subst hnet
    have hcaches : (fetchHandler request (some r) s).caches
        = cachesUpdate (cachesOpen s CACHE_NAME) CACHE_NAME
            (fun cache => cachePut cache request.url r) := by
      simp [fetchHandler, hget]
    rw [hcaches, cachesGet_cachesUpdate_self, cachesGet_cachesOpen_self]
    exact ⟨_, rfl, cachePut_match _ _ _ hput⟩

/-- Instance of the amended C6: a 404 for `/a` is stored. -/
theorem fetch_stores_resolved_witness :
    (Request.mk "GET" "/a").method = "GET" ∧
    ∃ c, cachesGet (fetchHandler (Request.mk "GET" "/a") (some ⟨404, "not found"⟩)
        [("tiles", [])]).caches CACHE_NAME = some c ∧
      cacheMatch c "/a" = some ⟨404, "not found"⟩ :=
  ⟨by decide,
    (fetch_stores_resolved (Request.mk "GET" "/a") (some ⟨404, "not found"⟩) [("tiles", [])]
      (by decide)).2 ⟨404, "not found"⟩ rfl (by decide)⟩

/-! ## The install listener: a successful install -/

theorem fetchAll_some (net : String → Option Response) (urls : List String)
    (hall : ∀ u ∈ urls, ∃ r, net u = some r ∧ addAllAccepts r = true) :
    ∃ es, fetchAll net urls = some es ∧ es.map Prod.fst = urls ∧
      ∀ e ∈ es, net e.1 = some e.2 := by
  induction urls with
  | nil => exact ⟨[], rfl, rfl, by simp⟩
  | cons u us ih =>
    obtain ⟨r, hr, hacc⟩ := hall u (List.mem_cons_self _ _)
    obtain ⟨es, hes, hkeys, hnet⟩ := ih (fun v hv => hall v (List.mem_cons_of_mem _ hv))
    refine ⟨(u, r) :: es, by simp [fetchAll, hr, hacc, hes], by simp [hkeys], ?_⟩
    intro e he
    rcases List.mem_cons.mp he with rfl | hmem
    · exact hr
    · exact hnet e hmem

theorem cacheMatch_writeAll_other (c : Cache) (es : List (String × Response)) (key : String)
    (h : key ∉ es.map Prod.fst) : cacheMatch (writeAll c es) key = cacheMatch c key := by
  induction es generalizing c with
  | nil => rfl
  | cons e rest ih =>
    simp only [List.map_cons, List.mem_cons, not_or] at h
    simp only [writeAll]
    rw [ih _ h.2, cacheMatch_cacheWrite_other c e.1 key e.2 h.1]

theorem cacheMatch_writeAll_mem (c : Cache) (es : List (String × Response))
    (hnodup : (es.map Prod.fst).Nodup) (e : String × Response) (he : e ∈ es) :
    cacheMatch (writeAll c es) e.1 = some e.2 := by
  induction es generalizing c with
  | nil => simp at he
  | cons e0 rest ih =>
    simp only [List.map_cons, List.nodup_cons] at hnodup
    simp only [writeAll]
    rcases List.mem_cons.mp he with rfl | hmem
    · rw [cacheMatch_writeAll_other _ rest e.1 hnodup.1, cacheMatch_cacheWrite_self]
    · exact ih _ hnodup.2 hmem

/-- A successful install for any cache name and any manifest without repeated entries. -/
theorem installWith_success (name : String) (urls : List String)
    (net : String → Option Response) (s : CacheStorage) (hnodup : urls.Nodup)
    (hall : ∀ u ∈ urls, ∃ r, net u = some r ∧ addAllAccepts r = true) :
    (installWith name urls net s).installed = true ∧
    (installWith name urls net s).skipWaiting = true ∧
    ∃ c, cachesGet (installWith name urls net s).caches name = some c ∧
      ∀ u ∈ urls, ∃ r, net u = some r ∧ cacheMatch c u = some r := by
  obtain ⟨es, hes, hkeys, hnet⟩ := fetchAll_some net urls hall
  have hres : installWith name urls net s
      = ⟨cachesUpdate (cachesOpen s name) name
          (fun _ => writeAll ((cachesGet (cachesOpen s name) name).getD []) es), true, true,
          [CacheCall.opened name, CacheCall.addedAll name urls]⟩ := by
    simp [installWith, cacheAddAll, hes, hnodup]
  rw [hres]
  refine ⟨rfl, rfl, writeAll ((cachesGet (cachesOpen s name) name).getD []) es, ?_, ?_⟩
  · show cachesGet (cachesUpdate (cachesOpen s name) name _) name = _
    rw [cachesGet_cachesUpdate_self, cachesGet_cachesOpen_self]
    rfl
  · intro u hu
    rw [← hkeys] at hu
    obtain ⟨e, he, rfl⟩ := List.mem_map.mp hu
    refine ⟨e.2, hnet e he, ?_⟩
    apply cacheMatch_writeAll_mem _ es _ e he
    rw [hkeys]
    exact hnodup

/-- C9 (a successful install populates the whole manifest).  If the fetch of every entry of
`urlsToCache` succeeds (it resolves with a response that `addAll` accepts), then after the
install listener the install has succeeded, `skipWaiting` was called, and the generation
`CACHE_NAME` holds for every manifest entry an entry with the response fetched for it. -/
theorem install_success_populates (net : String → Option Response) (s : CacheStorage)
    (hall : ∀ u ∈ urlsToCache, ∃ r, net u = some r ∧ addAllAccepts r = true) :
    (installHandler net s).installed = true ∧
    (installHandler net s).skipWaiting = true ∧
    ∃ c, cachesGet (installHandler net s).caches CACHE_NAME = some c ∧
      ∀ u ∈ urlsToCache, ∃ r, net u = some r ∧ cacheMatch c u = some r :=
  installWith_success CACHE_NAME urlsToCache net s (by decide) hall

/-- Instance of C9: every manifest entry is answered 200 with its own url as body, over a
store that holds a stale generation. -/
theorem install_success_populates_witness :
    (∀ u ∈ urlsToCache, ∃ r, (fun u => some (Response.mk 200 u)) u = some r ∧
      addAllAccepts r = true) ∧
    (installHandler (fun u => some (Response.mk 200 u))
      [("shoresquad-v0", [("/", ⟨200, "old"⟩)])]).skipWaiting = true :=
  ⟨fun u _ => ⟨Response.mk 200 u, rfl, rfl⟩,
    (install_success_populates (fun u => some (Response.mk 200 u))
      [("shoresquad-v0", [("/", ⟨200, "old"⟩)])]
      (fun u _ => ⟨Response.mk 200 u, rfl, rfl⟩)).2.1⟩

/-! ## The fallback lookup and the generations it consults -/

theorem cachesMatch_activePart (s : CacheStorage) (key : String)
    (h : OnlyActiveHolds s key) : cachesMatch s key = cachesMatch (activePart s) key := by
  induction s with
  | nil => rfl
  | cons g gs ih =>
    have hrest : OnlyActiveHolds gs key := fun g1 h1 => h g1 (List.mem_cons_of_mem _ h1)
    by_cases hg : g.1 = CACHE_NAME
    · simp [activePart, hg, cachesMatch, ih hrest]
    · have hm : cacheMatch g.2 key = none := h g (List.mem_cons_self _ _) hg
      simp [activePart, hg, cachesMatch, hm, ih hrest]

theorem fetchHandler_offline_reply_congr (request : Request) (s1 s2 : CacheStorage)
    (hkey : cachesMatch s1 request.url = cachesMatch s2 request.url)
    (hshell : cachesMatch s1 OFFLINE_URL = cachesMatch s2 OFFLINE_URL) :
    (fetchHandler request none s1).reply = (fetchHandler request none s2).reply := by
  unfold fetchHandler
  split
  · rfl
  · rw [hkey, hshell]
    cases cachesMatch s2 request.url with
    | some r => rfl
    | none => cases cachesMatch s2 OFFLINE_URL <;> rfl

/-- C10, as stated, fails: two stores with the same (empty) generation `CACHE_NAME`, one of
which also has a generation `shoresquad-v0` holding an entry for `/a`.  With the network
down the request for `/a` is answered from `shoresquad-v0` in the first store and fails in
the second. -/
theorem fetch_fallback_reads_stale_counterexample :
    activePart [("shoresquad-v0", [("/a", ⟨200, "old"⟩)]), (CACHE_NAME, [])]
      = activePart [(CACHE_NAME, [])] ∧
    (fetchHandler (Request.mk "GET" "/a") none
      [("shoresquad-v0", [("/a", ⟨200, "old"⟩)]), (CACHE_NAME, [])]).reply
      = Reply.response ⟨200, "old"⟩ ∧
    (fetchHandler (Request.mk "GET" "/a") none [(CACHE_NAME, [])]).reply = Reply.noResponse := by
  decide

/-- C10, amended (which generations the fallback lookup consults).  The lookup is
`caches.match`, over all generations.  For every GET request with key `K` and any two
stores that agree on the generation `CACHE_NAME` and whose other generations hold no entry
for `K` and none for the fallback document `/index.html`, the reply on network failure is
the same. -/
theorem fetch_fallback_active_only (request : Request) (s1 s2 : CacheStorage)
    (hagree : activePart s1 = activePart s2)
    (hkey1 : OnlyActiveHolds s1 request.url) (hkey2 : OnlyActiveHolds s2 request.url)
    (hshell1 : OnlyActiveHolds s1 OFFLINE_URL) (hshell2 : OnlyActiveHolds s2 OFFLINE_URL) :
    (fetchHandler request none s1).reply = (fetchHandler request none s2).reply := by
  apply fetchHandler_offline_reply_congr
  · rw [cachesMatch_activePart s1 _ hkey1, cachesMatch_activePart s2 _ hkey2, hagree]
  · rw [cachesMatch_activePart s1 _ hshell1, cachesMatch_activePart s2 _ hshell2, hagree]

/-- Instance of the amended C10: a generation `tiles` without an entry for `/a` or for the
fallback document does not change the reply. -/
theorem fetch_fallback_active_only_witness :
    activePart [("tiles", [("/t", ⟨200, "tile"⟩)]), (CACHE_NAME, [("/a", ⟨200, "a"⟩)])]
      = activePart [(CACHE_NAME, [("/a", ⟨200, "a"⟩)])] ∧
    OnlyActiveHolds [("tiles", [("/t", ⟨200, "tile"⟩)]), (CACHE_NAME, [("/a", ⟨200, "a"⟩)])]
      (Request.mk "GET" "/a").url ∧
    OnlyActiveHolds [(CACHE_NAME, [("/a", ⟨200, "a"⟩)])] (Request.mk "GET" "/a").url ∧
    OnlyActiveHolds [("tiles", [("/t", ⟨200, "tile"⟩)]), (CACHE_NAME, [("/a", ⟨200, "a"⟩)])]
      OFFLINE_URL ∧
    OnlyActiveHolds [(CACHE_NAME, [("/a", ⟨200, "a"⟩)])] OFFLINE_URL ∧
    (fetchHandler (Request.mk "GET" "/a") none
      [("tiles", [("/t", ⟨200, "tile"⟩)]), (CACHE_NAME, [("/a", ⟨200, "a"⟩)])]).reply
      = (fetchHandler (Request.mk "GET" "/a") none [(CACHE_NAME, [("/a", ⟨200, "a"⟩)])]).reply :=
  ⟨by decide, by unfold OnlyActiveHolds; decide, by unfold OnlyActiveHolds; decide,
    by unfold OnlyActiveHolds; decide, by unfold OnlyActiveHolds; decide,
    fetch_fallback_active_only (Request.mk "GET" "/a")
      [("tiles", [("/t", ⟨200, "tile"⟩)]), (CACHE_NAME, [("/a", ⟨200, "a"⟩)])]
      [(CACHE_NAME, [("/a", ⟨200, "a"⟩)])]
      (by decide) (by unfold OnlyActiveHolds; decide) (by unfold OnlyActiveHolds; decide)
      (by unfold OnlyActiveHolds; decide) (by unfold OnlyActiveHolds; decide)⟩

/-! ## The store invariant: generation names are distinct -/

theorem cachesHas_eq_false_iff (s : CacheStorage) (name : String) :
    cachesHas s name = false ↔ name ∉ cachesKeys s := by
  induction s with
  | nil => simp [cachesHas, cachesKeys]
  | cons g gs ih =>
    by_cases hg : g.1 = name
    · simp [cachesHas, cachesKeys, hg]
    · have hne : ¬ name = g.1 := fun e => hg e.symm
      simp [cachesHas, cachesKeys, hg, hne, ih]

theorem cachesKeys_append (s t : CacheStorage) :
    cachesKeys (s ++ t) = cachesKeys s ++ cachesKeys t := by
  induction s with
  | nil => rfl
  | cons g gs ih => simp [cachesKeys, ih]

theorem cachesKeys_cachesUpdate (s : CacheStorage) (name : String) (f : Cache → Cache) :
    cachesKeys (cachesUpdate s name f) = cachesKeys s := by
  induction s with
  | nil => rfl
  | cons g gs ih =>
    by_cases hg : g.1 = name <;> simp [cachesUpdate, cachesKeys, hg, ih]

theorem cachesKeys_cachesOpen_nodup (s : CacheStorage) (name : String)
    (hwf : (cachesKeys s).Nodup) : (cachesKeys (cachesOpen s name)).Nodup := by
  unfold cachesOpen
  cases hh : cachesHas s name with
  | true => simpa using hwf
  | false =>
    have hnot : name ∉ cachesKeys s := (cachesHas_eq_false_iff s name).mp hh
    simp only [Bool.false_eq_true, if_false, cachesKeys_append, cachesKeys]
    exact List.Nodup.append hwf (List.nodup_singleton _) (by simpa using hnot)

theorem cachesKeys_activePart_nodup (s : CacheStorage) (hwf : (cachesKeys s).Nodup) :
    (cachesKeys (activePart s)).Nodup := by
  by_cases h : CACHE_NAME ∈ cachesKeys s
  · rw [cachesKeys_activePart s hwf h]
    exact List.nodup_singleton _
  · rw [activePart_eq_nil s h]
    exact List.nodup_nil

/-- The three listeners keep the generation names distinct. -/
theorem handlers_keep_names_distinct (s : CacheStorage) (hwf : (cachesKeys s).Nodup) :
    (∀ name urls net, (cachesKeys (installWith name urls net s).caches).Nodup) ∧
    (cachesKeys (activateHandler s).caches).Nodup ∧
    (∀ request net, (cachesKeys (fetchHandler request net s).caches).Nodup) := by
  refine ⟨?_, ?_, ?_⟩
  · intro name urls net
    unfold installWith
    simp only
    cases cacheAddAll net urls ((cachesGet (cachesOpen s name) name).getD []) with
    | none => exact cachesKeys_cachesOpen_nodup s name hwf
    | some c =>
      simp only [cachesKeys_cachesUpdate]
      exact cachesKeys_cachesOpen_nodup s name hwf
  · rw [activateHandler_caches]
    exact cachesKeys_activePart_nodup s hwf
  · intro request net
    unfold fetchHandler
    split
    · exact hwf
    · cases net with
      | some r =>
        simp only [cachesKeys_cachesUpdate]
        exact cachesKeys_cachesOpen_nodup s CACHE_NAME hwf
      | none =>
        simp only
        cases cachesMatch s request.url with
        | some r => exact hwf
        | none => cases cachesMatch s OFFLINE_URL <;> exact hwf

/-! ## The fetch listener and the set of generations -/

theorem cachesKeys_cachesOpen (s : CacheStorage) (name : String) :
    cachesKeys (cachesOpen s name)
      = if cachesHas s name = true then cachesKeys s else cachesKeys s ++ [name] := by
  unfold cachesOpen
  cases hh : cachesHas s name with
  | true => simp
  | false => simp [cachesKeys_append, cachesKeys]

/-- C11, as stated, fails: from a store without generations (or one that has only
`shoresquad-v0`), a GET request whose fetch resolves makes the listener call
`caches.open(CACHE_NAME)`, which creates the generation: `caches.keys()` has one more name
after the listener than before. -/
theorem fetch_creates_generation_counterexample :
    cachesKeys ([] : CacheStorage) = [] ∧
    cachesKeys (fetchHandler (Request.mk "GET" "/a") (some ⟨200, "a"⟩) []).caches
      = [CACHE_NAME] ∧
    cachesKeys (fetchHandler (Request.mk "GET" "/a") (some ⟨200, "a"⟩)
      [("shoresquad-v0", [])]).caches = ["shoresquad-v0", CACHE_NAME] := by
  decide

/-- C11, amended (the fetch listener and the generations).  For every request, every
network outcome and every store, the listener deletes no generation and creates at most the
generation `CACHE_NAME`: `caches.keys()` after the listener is `caches.keys()` before it,
followed by `CACHE_NAME` exactly when the request is a GET, its fetch resolved, and no
generation named `CACHE_NAME` existed. -/
theorem fetch_generations (request : Request) (net : Option Response) (s : CacheStorage) :
    cachesKeys (fetchHandler request net s).caches
      = if request.method = "GET" ∧ net.isSome = true ∧ cachesHas s CACHE_NAME = false
        then cachesKeys s ++ [CACHE_NAME] else cachesKeys s := by
  by_cases hget : request.method = "GET"
  · cases net with
    | none =>
      rw [(fetchHandler_rejected_frame request s).1]
      simp
    | some r =>
      have hcaches : (fetchHandler request (some r) s).caches
          = cachesUpdate (cachesOpen s CACHE_NAME) CACHE_NAME
              (fun cache => cachePut cache request.url r) := by
        simp [fetchHandler, hget]
      rw [hcaches, cachesKeys_cachesUpdate, cachesKeys_cachesOpen]
      cases hh : cachesHas s CACHE_NAME <;> simp [hget]
  · simp [fetchHandler, hget]

end ShoreSquad
